import Mathlib

/-!
Verification of the habit-tracking domain model (`js/habit.js`, class `Habit`).

Calendar days are modeled as integer day indices (days since the epoch
1970-01-01, at local-midnight granularity); adding or subtracting one on a
day index is exactly what `setDate(getDate() ± 1)` does in the source.
`Date.prototype.getDay` becomes `weekday` below: day index 0 (1970-01-01)
was a Thursday, weekday number 4, with 0 = Sunday .. 6 = Saturday.
ISO `YYYY-MM-DD` strings compare lexicographically in the same order as
their day indices, so `Array.prototype.sort()` on normalized date strings
is modeled by a comparison sort on day indices with `≤`
(`List.insertionSort`). The nondeterministic `_generateId` is modeled by an
explicit `freshId` argument; `fromJSON` overwrites it with the stored id.
`Math.round` on the nonnegative completion-rate value is modeled by exact
rational rounding (`round q = ⌊q + 1/2⌋`). `_normalizeDate` is the identity
at this granularity, since inputs are already calendar days.
-/

/-- Weekday number of a day index, 0 = Sunday .. 6 = Saturday
(local-calendar `getDay`; day index 0 is a Thursday). -/
def weekday (d : Int) : Int := (d + 4) % 7

/-- The `Habit` entity: the fields assigned by the `Habit` constructor. -/
structure Habit where
  id : String
  name : String
  createdDate : Int
  completions : List Int
  notificationTime : Option String
  daysOfWeek : Option (List Int)
  notes : String
  tags : List String
deriving DecidableEq

/-- The plain record produced by `Habit.toJSON` and consumed by `Habit.fromJSON`. -/
structure HabitRecord where
  id : String
  name : String
  createdDate : Int
  completions : List Int
  notificationTime : Option String
  daysOfWeek : Option (List Int)
  notes : String
  tags : List String
deriving DecidableEq

/-- The statistics object returned by `Habit.getStatistics`. -/
structure Statistics where
  totalCompletions : Nat
  currentStreak : Nat
  longestStreak : Nat
  completionRate : Int
  daysSinceCreation : Int
  scheduledDaysPassed : Int
deriving DecidableEq

/-- `isActiveOnDay`: active every day when `daysOfWeek` is null or empty,
otherwise membership of the day's weekday number. -/
def Habit.isActiveOnDay (h : Habit) (day : Int) : Bool :=
  match h.daysOfWeek with
  | none => true
  | some ds => if ds.isEmpty then true else ds.contains (weekday day)

/-- `isCompletedOn`: membership of the normalized day in `completions`. -/
def Habit.isCompletedOn (h : Habit) (day : Int) : Bool :=
  h.completions.contains day

/-- `markCompleted`: insert the day if missing, then re-sort. -/
def Habit.markCompleted (h : Habit) (day : Int) : Habit :=
  if h.completions.contains day then h
  else { h with completions := List.insertionSort (· ≤ ·) (h.completions ++ [day]) }

/-- `markIncomplete`: remove the first occurrence of the day, if present. -/
def Habit.markIncomplete (h : Habit) (day : Int) : Habit :=
  { h with completions := h.completions.erase day }

/-- Loop body of `calculateStreak`: walk backward from `currentDate`, with the
`checkingToday` flag and the remaining iteration budget (`365 - daysChecked`). -/
def Habit.streakLoop (h : Habit) : Int → Nat → Bool → Nat → Nat
  | _, streak, _, 0 => streak
  | currentDate, streak, checkingToday, fuel + 1 =>
    if h.isActiveOnDay currentDate then
      if h.isCompletedOn currentDate then
        h.streakLoop (currentDate - 1) (streak + 1) false fuel
      else if checkingToday then
        h.streakLoop (currentDate - 1) streak false fuel
      else streak
    else
      h.streakLoop (currentDate - 1) streak checkingToday fuel

/-- `calculateStreak`, with the implicit wall-clock "today" made an explicit
parameter (the source reads the system clock). -/
def Habit.calculateStreak (h : Habit) (today : Int) : Nat :=
  if h.completions.isEmpty then 0
  else h.streakLoop today 0 true 365

/-- Inner loop of the longest-streak computation in `getStatistics`: does any
day strictly between `a` and `b` count as scheduled? -/
def Habit.existsScheduledBetween (h : Habit) (a b : Int) : Bool :=
  (List.range (b - a - 1).toNat).any fun k => h.isActiveOnDay (a + 1 + (k : Int))

/-- The sorted copy `[...completions].sort()` taken in `getStatistics`. -/
def Habit.sortedCompletions (h : Habit) : List Int :=
  List.insertionSort (· ≤ ·) h.completions

/-- Longest-streak scan of `getStatistics`, carrying `tempStreak` and
`longestStreak` through the remaining completions; `prev` is the completion
examined at the previous index. -/
def Habit.longestStreakAux (h : Habit) : List Int → Int → Nat → Nat → Nat
  | [], _, temp, longest => max longest temp
  | c :: rest, prev, temp, longest =>
    if h.existsScheduledBetween prev c then
      h.longestStreakAux rest c 1 (max longest temp)
    else
      h.longestStreakAux rest c (temp + 1) longest

/-- The longest-streak value computed inside `getStatistics`. -/
def Habit.longestStreak (h : Habit) : Nat :=
  match h.sortedCompletions with
  | [] => 0
  | c :: rest => h.longestStreakAux rest c 1 0

/-- `daysSinceCreation`: inclusive day count from `createdDate` to today. -/
def Habit.daysSinceCreation (h : Habit) (today : Int) : Int :=
  today - h.createdDate + 1

/-- `scheduledDaysPassed`: with a day restriction, count the scheduled days
from `createdDate` through today inclusive; otherwise the inclusive day
count since creation. -/
def Habit.scheduledDaysPassed (h : Habit) (today : Int) : Int :=
  match h.daysOfWeek with
  | none => h.daysSinceCreation today
  | some ds =>
    if ds.isEmpty then h.daysSinceCreation today
    else ((List.range (today - h.createdDate + 1).toNat).filter
            (fun k : Nat => h.isActiveOnDay (h.createdDate + (k : Int)))).length

/-- `completionRate`: `Math.round(totalCompletions / scheduledDaysPassed * 100)`
when `scheduledDaysPassed > 0`, else `0`. -/
def Habit.completionRate (h : Habit) (today : Int) : Int :=
  if 0 < h.scheduledDaysPassed today then
    round (((h.completions.length : ℚ) / (h.scheduledDaysPassed today : ℚ)) * 100)
  else 0

/-- `getStatistics`, with "today" an explicit parameter. -/
def Habit.getStatistics (h : Habit) (today : Int) : Statistics :=
  { totalCompletions := h.completions.length
    currentStreak := h.calculateStreak today
    longestStreak := h.longestStreak
    completionRate := h.completionRate today
    daysSinceCreation := h.daysSinceCreation today
    scheduledDaysPassed := h.scheduledDaysPassed today }

/-- `setDaysOfWeek`: clear on null or empty; validate range and store the
de-duplicated sorted list; otherwise raise the validation error. The thrown
`Error` is modeled by `Except.error`; on error no updated habit is produced,
so the entity state is unchanged. -/
def Habit.setDaysOfWeek (h : Habit) (days : Option (List Int)) : Except String Habit :=
  match days with
  | none => .ok { h with daysOfWeek := none }
  | some ds =>
    if ds.isEmpty then .ok { h with daysOfWeek := none }
    else if ds.all (fun d => decide (0 ≤ d) && decide (d ≤ 6)) then
      .ok { h with daysOfWeek := some (List.insertionSort (· ≤ ·) ds.dedup) }
    else .error "Invalid days array. Must be an array of integers between 0-6"

/-- Day-name table used by `getDaysOfWeekString`. -/
def dayNames : List String := ["Sun", "Mon", "Tue", "Wed", "Thu", "Fri", "Sat"]

/-- Rendering of `dayNames[d]` inside `join`: an out-of-range index reads
`undefined`, which `Array.prototype.join` renders as the empty string. -/
def dayAbbrev (d : Int) : String :=
  if decide (0 ≤ d) && decide (d < 7) then dayNames.getD d.toNat "" else ""

/-- `getDaysOfWeekString` as a function of the `daysOfWeek` field. -/
def daysOfWeekString (ods : Option (List Int)) : String :=
  match ods with
  | none => "Every day"
  | some ds =>
    if ds.isEmpty then "Every day"
    else if ds.length = 7 then "Every day"
    else if ds.length = 5 && ds.all (fun d => decide (1 ≤ d) && decide (d ≤ 5)) then "Weekdays"
    else if ds.length = 2 && ds.contains 0 && ds.contains 6 then "Weekends"
    else String.intercalate ", " (ds.map dayAbbrev)

/-- `getDaysOfWeekString` on a habit. -/
def Habit.getDaysOfWeekString (h : Habit) : String :=
  daysOfWeekString h.daysOfWeek

/-- The `Habit` constructor (`new Habit(...)`); `freshId` stands for the
generated `_generateId()` value. The `notes || ''` coalescing is modeled by
the empty-string test, the empty string being the only falsy `String`; the
array parameters are non-null at this typed level and arrays (empty ones
included) are truthy, so they are stored verbatim. -/
def Habit.create (freshId name : String) (createdDate : Int) (completions : List Int)
    (notificationTime : Option String) (daysOfWeek : Option (List Int))
    (notes : String) (tags : List String) : Habit :=
  { id := freshId
    name := name
    createdDate := createdDate
    completions := completions
    notificationTime := notificationTime
    daysOfWeek := daysOfWeek
    notes := if notes = "" then "" else notes
    tags := tags }

/-- `toJSON`: the plain storage record of a habit. -/
def Habit.toJSON (h : Habit) : HabitRecord :=
  { id := h.id
    name := h.name
    createdDate := h.createdDate
    completions := h.completions
    notificationTime := h.notificationTime
    daysOfWeek := h.daysOfWeek
    notes := h.notes
    tags := h.tags }

/-- `fromJSON`: rebuild through the constructor, then restore the stored id. -/
def Habit.fromJSON (freshId : String) (r : HabitRecord) : Habit :=
  { Habit.create freshId r.name r.createdDate r.completions r.notificationTime
      r.daysOfWeek r.notes r.tags with
    id := r.id }

/-- A single mutation of the completion set. -/
inductive HabitOp
  | complete (day : Int)
  | incomplete (day : Int)

/-- Apply one completion-set mutation. -/
def Habit.applyOp (h : Habit) : HabitOp → Habit
  | .complete d => h.markCompleted d
  | .incomplete d => h.markIncomplete d

/-- Apply a sequence of completion-set mutations, oldest first. -/
def Habit.applyOps (h : Habit) (ops : List HabitOp) : Habit :=
  ops.foldl Habit.applyOp h

/-- Modelled from the spec (§4.3 step 4), for comparison with the code: the
walk in which a scheduled-but-incomplete day is tolerated only when it is
the literal first day examined, i.e. today itself. The only difference from
`Habit.streakLoop` is that the first-day flag is also cleared when an
unscheduled day is skipped. -/
def Habit.streakLoopSpec (h : Habit) : Int → Nat → Bool → Nat → Nat
  | _, streak, _, 0 => streak
  | currentDate, streak, firstDay, fuel + 1 =>
    if h.isActiveOnDay currentDate then
      if h.isCompletedOn currentDate then
        h.streakLoopSpec (currentDate - 1) (streak + 1) false fuel
      else if firstDay then
        h.streakLoopSpec (currentDate - 1) streak false fuel
      else streak
    else
      h.streakLoopSpec (currentDate - 1) streak false fuel

/-- Modelled from the spec: `calculateStreak` as the claim reads it, with
leniency restricted to the literal first day examined. -/
def Habit.calculateStreakSpec (h : Habit) (today : Int) : Nat :=
  if h.completions.isEmpty then 0
  else h.streakLoopSpec today 0 true 365

/-- Run decomposition of the longest-streak scan: the lengths of the maximal
runs of consecutive completions in which no day strictly between two
neighbouring completions is scheduled. -/
def Habit.runLengthsAux (h : Habit) : List Int → Int → Nat → List Nat
  | [], _, cur => [cur]
  | c :: rest, prev, cur =>
    if h.existsScheduledBetween prev c then
      cur :: h.runLengthsAux rest c 1
    else
      h.runLengthsAux rest c (cur + 1)

/-- Run lengths of the sorted completion sequence. -/
def Habit.runLengths (h : Habit) : List Nat :=
  match h.sortedCompletions with
  | [] => []
  | c :: rest => h.runLengthsAux rest c 1

/-- The full set of weekday numbers. -/
def weekAll : List Int := [0, 1, 2, 3, 4, 5, 6]

/-! Helper lemmas. -/

lemma contains_iff_mem' {l : List Int} {a : Int} : l.contains a = true ↔ a ∈ l :=
  List.elem_iff

lemma weekday_nonneg (d : Int) : 0 ≤ weekday d :=
  Int.emod_nonneg _ (by norm_num)

lemma weekday_lt_seven (d : Int) : weekday d < 7 :=
  Int.emod_lt_of_pos _ (by norm_num)

lemma sorted_lt_of_sorted_le_nodup {l : List Int}
    (hs : List.Sorted (· ≤ ·) l) (hn : l.Nodup) : List.Sorted (· < ·) l :=
  (List.Pairwise.and hs hn).imp fun h => lt_of_le_of_ne h.1 h.2

lemma markCompleted_sorted (h : Habit) (d : Int)
    (hs : List.Sorted (· < ·) h.completions) :
    List.Sorted (· < ·) (h.markCompleted d).completions := by
  unfold Habit.markCompleted
  cases hc : h.completions.contains d
  · simp only [Bool.false_eq_true, if_false]
    apply sorted_lt_of_sorted_le_nodup
    · exact List.sorted_insertionSort _ _
    · rw [(List.perm_insertionSort _ _).nodup_iff]
      have hnd : h.completions.Nodup := List.Sorted.nodup hs
      have hd : d ∉ h.completions := by
        intro hmem
        rw [← contains_iff_mem'] at hmem
        rw [hc] at hmem
        exact Bool.false_ne_true hmem
      simp [List.nodup_append, hnd, hd]
  · simpa using hs

lemma markIncomplete_sorted (h : Habit) (d : Int)
    (hs : List.Sorted (· < ·) h.completions) :
    List.Sorted (· < ·) (h.markIncomplete d).completions :=
  List.Pairwise.sublist (List.erase_sublist d h.completions) hs

lemma applyOps_sorted (h : Habit) (ops : List HabitOp)
    (hs : List.Sorted (· < ·) h.completions) :
    List.Sorted (· < ·) (h.applyOps ops).completions := by
  induction ops generalizing h with
  | nil => exact hs
  | cons op rest ih =>
    show List.Sorted (· < ·) ((h.applyOp op).applyOps rest).completions
    cases op with
    | complete d => exact ih _ (markCompleted_sorted h d hs)
    | incomplete d => exact ih _ (markIncomplete_sorted h d hs)

lemma markCompleted_of_contains (h : Habit) (d : Int)
    (hc : h.completions.contains d = true) : h.markCompleted d = h := by
  unfold Habit.markCompleted
  rw [if_pos hc]

lemma markCompleted_contains (h : Habit) (d : Int) :
    (h.markCompleted d).completions.contains d = true := by
  unfold Habit.markCompleted
  cases hc : h.completions.contains d
  · simp only [Bool.false_eq_true, if_false]
    rw [contains_iff_mem', (List.perm_insertionSort _ _).mem_iff]
    simp
  · simpa using hc

lemma streakLoop_succ (h : Habit) (d : Int) (s : Nat) (b : Bool) (n : Nat) :
    h.streakLoop d s b (n + 1) =
      if h.isActiveOnDay d then
        if h.isCompletedOn d then h.streakLoop (d - 1) (s + 1) false n
        else if b then h.streakLoop (d - 1) s false n
        else s
      else h.streakLoop (d - 1) s b n := rfl

lemma streakLoopSpec_succ (h : Habit) (d : Int) (s : Nat) (b : Bool) (n : Nat) :
    h.streakLoopSpec d s b (n + 1) =
      if h.isActiveOnDay d then
        if h.isCompletedOn d then h.streakLoopSpec (d - 1) (s + 1) false n
        else if b then h.streakLoopSpec (d - 1) s false n
        else s
      else h.streakLoopSpec (d - 1) s false n := rfl

lemma streakLoop_false_eq_spec (h : Habit) :
    ∀ (fuel : Nat) (d : Int) (s : Nat),
      h.streakLoop d s false fuel = h.streakLoopSpec d s false fuel := by
  intro fuel
  induction fuel with
  | zero => intro d s; rfl
  | succ n ih =>
    intro d s
    simp only [Habit.streakLoop, Habit.streakLoopSpec]
    cases hA : h.isActiveOnDay d
    · simp [ih]
    · cases hC : h.isCompletedOn d
      · simp
      · simp [ih]

lemma streakLoop_le (h : Habit) :
    ∀ (fuel : Nat) (d : Int) (s : Nat) (b : Bool),
      h.streakLoop d s b fuel ≤ s + fuel := by
  intro fuel
  induction fuel with
  | zero => intro d s b; simp [Habit.streakLoop]
  | succ n ih =>
    intro d s b
    simp only [Habit.streakLoop]
    cases hA : h.isActiveOnDay d
    · simp only [Bool.false_eq_true, if_false]
      have := ih (d - 1) s b
      omega
    · simp only [if_true]
      cases hC : h.isCompletedOn d
      · cases b
        · simp only [Bool.false_eq_true, if_false]
          omega
        · simp only [if_true, Bool.false_eq_true, if_false]
          have := ih (d - 1) s false
          omega
      · simp only [if_true]
        have := ih (d - 1) (s + 1) false
        omega

/-! Concrete habits used in counterexamples and witnesses. -/

def habitC1 : Habit :=
  { id := "c1", name := "walker", createdDate := -30, completions := [-7],
    notificationTime := none, daysOfWeek := some [4], notes := "", tags := [] }

def habitC1w : Habit :=
  { id := "w1", name := "n", createdDate := 0, completions := [0],
    notificationTime := none, daysOfWeek := none, notes := "", tags := [] }

def habitC4w : Habit :=
  { id := "w4", name := "n", createdDate := 0, completions := [1, 3],
    notificationTime := none, daysOfWeek := none, notes := "", tags := [] }

def opsC4w : List HabitOp := [.complete 2, .incomplete 1, .complete 2]

def habitC5w : Habit :=
  { id := "w5", name := "n", createdDate := 0, completions := [],
    notificationTime := none, daysOfWeek := none, notes := "", tags := [] }

def recDup : HabitRecord :=
  { id := "r", name := "n", createdDate := 0, completions := [3, 1, 1],
    notificationTime := none, daysOfWeek := none, notes := "", tags := [] }

/-- C1 (amended): the walk tolerates a scheduled-but-incomplete day exactly
when it is the first scheduled day examined. When today itself is scheduled,
the code agrees everywhere with the claim's reading (`calculateStreakSpec`):
only today is tolerated and every scheduled-but-incomplete day strictly
before today terminates the walk with the accumulated count. -/
theorem calculateStreak_eq_claimSpec_of_today_scheduled (h : Habit) (today : Int)
    (hA : h.isActiveOnDay today = true) :
    h.calculateStreak today = h.calculateStreakSpec today := by
  unfold Habit.calculateStreak Habit.calculateStreakSpec
  cases hE : h.completions.isEmpty
  · simp only [Bool.false_eq_true, if_false]
    rw [show (365 : Nat) = 364 + 1 from rfl, streakLoop_succ, streakLoopSpec_succ, hA]
    cases hC : h.isCompletedOn today
    · simp [streakLoop_false_eq_spec]
    · simp [streakLoop_false_eq_spec]
  · simp

/-- C1 counterexample: in `habitC1` (scheduled on weekday 4 only), day 0 is
scheduled-but-incomplete and strictly before today = 1, yet the code keeps
walking and returns streak 1; the claim as stated (leniency only for the
literal first day examined, `calculateStreakSpec`) stops there with 0. -/
theorem calculateStreak_claim_counterexample :
    habitC1.isActiveOnDay 1 = false ∧
    habitC1.isActiveOnDay 0 = true ∧
    habitC1.isCompletedOn 0 = false ∧
    habitC1.calculateStreak 1 = 1 ∧
    habitC1.calculateStreakSpec 1 = 0 := by decide

/-- C1 witness: a concrete habit whose today is scheduled, on which the code
and the claim's reading agree. -/
theorem calculateStreak_eq_claimSpec_witness :
    habitC1w.calculateStreak 0 = habitC1w.calculateStreakSpec 0 :=
  calculateStreak_eq_claimSpec_of_today_scheduled habitC1w 0 (by decide)

/-- C4: starting from strictly ascending completions, any sequence of
`markCompleted` and `markIncomplete` calls leaves completions strictly
ascending with no duplicates, and `markCompleted` is idempotent: marking an
already-completed day changes nothing. -/
theorem completions_invariant (h : Habit) (ops : List HabitOp) (d : Int) :
    (List.Sorted (· < ·) h.completions →
      List.Sorted (· < ·) (h.applyOps ops).completions ∧
      (h.applyOps ops).completions.Nodup) ∧
    (h.markCompleted d).markCompleted d = h.markCompleted d := by
  constructor
  · intro hs
    have hres := applyOps_sorted h ops hs
    exact ⟨hres, List.Sorted.nodup hres⟩
  · exact markCompleted_of_contains _ _ (markCompleted_contains h d)

/-- C4 witness: the invariant and idempotence at a concrete habit and a
concrete mutation sequence. -/
theorem completions_invariant_witness :
    (List.Sorted (· < ·) (habitC4w.applyOps opsC4w).completions ∧
      (habitC4w.applyOps opsC4w).completions.Nodup) ∧
    (habitC4w.markCompleted 5).markCompleted 5 = habitC4w.markCompleted 5 :=
  ⟨(completions_invariant habitC4w opsC4w 5).1 (by decide),
   (completions_invariant habitC4w opsC4w 5).2⟩

/-- C5: `calculateStreak` returns 0 on empty completions, and its result
never exceeds the 365-iteration hard cap of the backward walk. -/
theorem calculateStreak_bounds (h : Habit) (today : Int) :
    h.calculateStreak today ≤ 365 ∧
    (h.completions = [] → h.calculateStreak today = 0) := by
  constructor
  · unfold Habit.calculateStreak
    cases hE : h.completions.isEmpty
    · simpa using streakLoop_le h 365 today 0 true
    · simp
  · intro hE
    unfold Habit.calculateStreak
    simp [hE]

/-- C5 witness: both bounds at a concrete habit with empty completions. -/
theorem calculateStreak_bounds_witness :
    habitC5w.calculateStreak 7 = 0 ∧ habitC5w.calculateStreak 7 ≤ 365 :=
  ⟨(calculateStreak_bounds habitC5w 7).2 rfl, (calculateStreak_bounds habitC5w 7).1⟩

/-- C7: serializing a habit and deserializing the record reproduces the habit
in every field, the assigned id included, regardless of the id the
constructor would otherwise generate. -/
theorem fromJSON_toJSON_roundtrip (h : Habit) (freshId : String) :
    Habit.fromJSON freshId h.toJSON = h := by
  obtain ⟨i, nm, cd, cs, nt, dw, no, tg⟩ := h
  have hno : (if no = "" then "" else no) = no := by
    by_cases hn : no = "" <;> simp [hn]
  simp [Habit.toJSON, Habit.fromJSON, Habit.create, hno]

/-- C10: the constructor and `fromJSON` store the supplied completions
sequence verbatim; in particular the record `recDup` with unsorted,
duplicated completions deserializes to a habit whose completions are that
same sequence, neither sorted nor de-duplicated. -/
theorem completions_stored_verbatim
    (freshId nm : String) (cd : Int) (cs : List Int) (nt : Option String)
    (dw : Option (List Int)) (no : String) (tg : List String) (r : HabitRecord) :
    (Habit.create freshId nm cd cs nt dw no tg).completions = cs ∧
    (Habit.fromJSON freshId r).completions = r.completions ∧
    (Habit.fromJSON freshId recDup).completions = [3, 1, 1] ∧
    (List.Sorted (· < ·) (Habit.fromJSON freshId recDup).completions ↔ False) ∧
    ((Habit.fromJSON freshId recDup).completions.Nodup ↔ False) := by
  refine ⟨rfl, rfl, rfl, ?_, ?_⟩ <;>
    · rw [show (Habit.fromJSON freshId recDup).completions = [3, 1, 1] from rfl]
      decide

/-! Lemmas for the longest-streak run decomposition (C2). -/

lemma longestStreakAux_eq_runs (h : Habit) :
    ∀ (l : List Int) (prev : Int) (temp longest : Nat),
      h.longestStreakAux l prev temp longest =
        max longest ((h.runLengthsAux l prev temp).foldr max 0) := by
  intro l
  induction l with
  | nil =>
    intro prev temp longest
    simp [Habit.longestStreakAux, Habit.runLengthsAux]
  | cons c rest ih =>
    intro prev temp longest
    simp only [Habit.longestStreakAux, Habit.runLengthsAux]
    cases hB : h.existsScheduledBetween prev c
    · simp only [Bool.false_eq_true, if_false]
      exact ih c (temp + 1) longest
    · simp only [if_true, List.foldr_cons]
      rw [ih c 1 (max longest temp), Nat.max_assoc]
  
lemma runLengthsAux_pos (h : Habit) :
    ∀ (l : List Int) (prev : Int) (temp : Nat), 1 ≤ temp →
      ∀ n ∈ h.runLengthsAux l prev temp, 1 ≤ n := by
  intro l
  induction l with
  | nil =>
    intro prev temp ht n hn
    simp only [Habit.runLengthsAux, List.mem_singleton] at hn
    omega
  | cons c rest ih =>
    intro prev temp ht n hn
    simp only [Habit.runLengthsAux] at hn
    cases hB : h.existsScheduledBetween prev c <;> rw [hB] at hn
    · simp only [Bool.false_eq_true, if_false] at hn
      exact ih c (temp + 1) (by omega) n hn
    · simp only [if_true, List.mem_cons] at hn
      rcases hn with rfl | hn'
      · exact ht
      · exact ih c 1 le_rfl n hn'

lemma runLengthsAux_sum (h : Habit) :
    ∀ (l : List Int) (prev : Int) (temp : Nat),
      (h.runLengthsAux l prev temp).sum = temp + l.length := by
  intro l
  induction l with
  | nil =>
    intro prev temp
    simp [Habit.runLengthsAux]
  | cons c rest ih =>
    intro prev temp
    simp only [Habit.runLengthsAux]
    cases hB : h.existsScheduledBetween prev c
    · simp only [Bool.false_eq_true, if_false]
      rw [ih c (temp + 1)]
      simp [List.length_cons]
      omega
    · simp only [if_true, List.sum_cons]
      rw [ih c 1]
      simp [List.length_cons]
      omega

lemma existsScheduledBetween_iff (h : Habit) (a b : Int) :
    h.existsScheduledBetween a b = true ↔
      ∃ d : Int, a < d ∧ d < b ∧ h.isActiveOnDay d = true := by
  unfold Habit.existsScheduledBetween
  rw [List.any_eq_true]
  constructor
  · rintro ⟨k, hk, hp⟩
    rw [List.mem_range] at hk
    exact ⟨a + 1 + (k : Int), by omega, by omega, hp⟩
  · rintro ⟨d, had, hdb, hp⟩
    refine ⟨(d - a - 1).toNat, ?_, ?_⟩
    · rw [List.mem_range]; omega
    · rw [show a + 1 + ((d - a - 1).toNat : Int) = d from by omega]
      exact hp

/-- C2: the longest-streak scan is the maximum over the run decomposition of
the ascending completion sequence, where two consecutive completions belong
to the same run exactly when no calendar day strictly between them is
scheduled (`existsScheduledBetween` is that test); every run, a single or
first completion included, has length at least 1, and the runs partition the
completion sequence. -/
theorem longestStreak_run_decomposition (h : Habit) (today : Int) :
    (h.getStatistics today).longestStreak = h.runLengths.foldr max 0 ∧
    (∀ n ∈ h.runLengths, 1 ≤ n) ∧
    h.runLengths.sum = h.completions.length ∧
    (∀ a b : Int, h.existsScheduledBetween a b = true ↔
      ∃ d : Int, a < d ∧ d < b ∧ h.isActiveOnDay d = true) := by
  have hlen : h.sortedCompletions.length = h.completions.length :=
    (List.perm_insertionSort _ _).length_eq
  refine ⟨?_, ?_, ?_, existsScheduledBetween_iff h⟩
  · show h.longestStreak = _
    cases hsc : h.sortedCompletions with
    | nil =>
      have h1 : h.longestStreak = 0 := by
        unfold Habit.longestStreak
        rw [hsc]
      have h2 : h.runLengths = [] := by
        unfold Habit.runLengths
        rw [hsc]
      rw [h1, h2]
      rfl
    | cons c rest =>
      have h1 : h.longestStreak = h.longestStreakAux rest c 1 0 := by
        unfold Habit.longestStreak
        rw [hsc]
      have h2 : h.runLengths = h.runLengthsAux rest c 1 := by
        unfold Habit.runLengths
        rw [hsc]
      rw [h1, h2, longestStreakAux_eq_runs]
      simp
  · intro n hn
    cases hsc : h.sortedCompletions with
    | nil =>
      have h2 : h.runLengths = [] := by
        unfold Habit.runLengths
        rw [hsc]
      rw [h2] at hn
      simp at hn
    | cons c rest =>
      have h2 : h.runLengths = h.runLengthsAux rest c 1 := by
        unfold Habit.runLengths
        rw [hsc]
      rw [h2] at hn
      exact runLengthsAux_pos h rest c 1 le_rfl n hn
  · cases hsc : h.sortedCompletions with
    | nil =>
      have h2 : h.runLengths = [] := by
        unfold Habit.runLengths
        rw [hsc]
      rw [hsc] at hlen
      rw [h2, ← hlen]
      rfl
    | cons c rest =>
      have h2 : h.runLengths = h.runLengthsAux rest c 1 := by
        unfold Habit.runLengths
        rw [hsc]
      rw [hsc] at hlen
      rw [h2, runLengthsAux_sum, ← hlen]
      simp only [List.length_cons]
      omega

lemma setDaysOfWeek_some (h : Habit) (ds : List Int) :
    h.setDaysOfWeek (some ds) =
      if ds.isEmpty then Except.ok { h with daysOfWeek := none }
      else if ds.all (fun d => decide (0 ≤ d) && decide (d ≤ 6)) then
        Except.ok { h with daysOfWeek := some (List.insertionSort (· ≤ ·) ds.dedup) }
      else Except.error "Invalid days array. Must be an array of integers between 0-6" :=
  rfl

/-- C8: `setDaysOfWeek` clears the restriction on null or empty input; on a
list of in-range days it stores a sorted, de-duplicated list with exactly
the input's members; on any out-of-range element it raises the validation
error and produces no updated habit, so the state is unchanged. -/
theorem setDaysOfWeek_spec (h : Habit) (ds : List Int) :
    (h.setDaysOfWeek none = Except.ok { h with daysOfWeek := none }) ∧
    (ds = [] → h.setDaysOfWeek (some ds) = Except.ok { h with daysOfWeek := none }) ∧
    ((∀ d ∈ ds, 0 ≤ d ∧ d ≤ 6) → ds ≠ [] →
      ∃ stored, h.setDaysOfWeek (some ds) =
          Except.ok { h with daysOfWeek := some stored } ∧
        List.Sorted (· < ·) stored ∧ stored.Nodup ∧
        (∀ d : Int, d ∈ stored ↔ d ∈ ds)) ∧
    ((∃ d ∈ ds, d < 0 ∨ 6 < d) →
      h.setDaysOfWeek (some ds) =
        Except.error "Invalid days array. Must be an array of integers between 0-6") := by
  refine ⟨rfl, ?_, ?_, ?_⟩
  · rintro rfl
    rfl
  · intro hall hne
    have hnodup : ds.dedup.Nodup := List.nodup_dedup ds
    have hemp : ds.isEmpty = false := by
      cases ds with
      | nil => exact absurd rfl hne
      | cons a t => rfl
    have hallb : (ds.all fun d => decide (0 ≤ d) && decide (d ≤ 6)) = true := by
      rw [List.all_eq_true]
      intro d hd
      have := hall d hd
      simp only [Bool.and_eq_true, decide_eq_true_eq]
      omega
    refine ⟨List.insertionSort (· ≤ ·) ds.dedup, ?_, ?_, ?_, ?_⟩
    · rw [setDaysOfWeek_some, hemp, hallb]
      rfl
    · exact sorted_lt_of_sorted_le_nodup (List.sorted_insertionSort _ _)
        ((List.perm_insertionSort _ _).nodup_iff.mpr hnodup)
    · exact (List.perm_insertionSort _ _).nodup_iff.mpr hnodup
    · intro d
      rw [(List.perm_insertionSort _ _).mem_iff, List.mem_dedup]
  · rintro ⟨d, hd, hrange⟩
    have hemp : ds.isEmpty = false := by
      cases ds with
      | nil => cases hd
      | cons a t => rfl
    have hallb : (ds.all fun x => decide (0 ≤ x) && decide (x ≤ 6)) = false := by
      cases hcon : ds.all fun x => decide (0 ≤ x) && decide (x ≤ 6)
      · rfl
      · exfalso
        rw [List.all_eq_true] at hcon
        have := hcon d hd
        simp only [Bool.and_eq_true, decide_eq_true_eq] at this
        omega
    rw [setDaysOfWeek_some, hemp, hallb]
    rfl

/-- C8 witness: a concrete valid input with duplicates is de-duplicated,
sorted and stored. -/
theorem setDaysOfWeek_spec_witness :
    ∃ stored, habitC4w.setDaysOfWeek (some [3, 3, 1]) =
        Except.ok { habitC4w with daysOfWeek := some stored } ∧
      List.Sorted (· < ·) stored ∧ stored.Nodup ∧
      (∀ d : Int, d ∈ stored ↔ d ∈ ([3, 3, 1] : List Int)) :=
  (setDaysOfWeek_spec habitC4w [3, 3, 1]).2.2.1 (by decide) (by decide)

/-! Lemmas for the humanized schedule label (C9). -/

/-- The label contract for one sorted in-range `daysOfWeek` value. -/
abbrev weekLabelOk (ds : List Int) : Prop :=
  (daysOfWeekString (some ds) = "Weekdays" ↔ ds = [1, 2, 3, 4, 5]) ∧
  (daysOfWeekString (some ds) = "Weekends" ↔ ds = [0, 6]) ∧
  (daysOfWeekString (some ds) = "Every day" ↔ (ds = [] ∨ ds = weekAll)) ∧
  (ds ≠ [1, 2, 3, 4, 5] → ds ≠ [0, 6] → ds ≠ [] → ds ≠ weekAll →
    daysOfWeekString (some ds) = String.intercalate ", " (ds.map dayAbbrev))

lemma sublist_of_sorted_subset :
    ∀ (l ds : List Int), List.Sorted (· < ·) l → List.Sorted (· < ·) ds →
      (∀ x ∈ ds, x ∈ l) → ds.Sublist l := by
  intro l
  induction l with
  | nil =>
    intro ds _ _ hsub
    cases ds with
    | nil => exact List.Sublist.refl _
    | cons b t => exact absurd (hsub b (List.mem_cons_self b t)) (List.not_mem_nil b)
  | cons a l ih =>
    intro ds hl hds hsub
    cases ds with
    | nil => exact List.nil_sublist _
    | cons b t =>
      rcases List.sorted_cons.mp hl with ⟨hal, hl'⟩
      rcases List.sorted_cons.mp hds with ⟨hbt, hds'⟩
      by_cases hba : b = a
      · subst hba
        apply List.Sublist.cons₂
        apply ih t hl' hds'
        intro x hx
        have hbx : b < x := hbt x hx
        have hxl : x ∈ b :: l := hsub x (List.mem_cons_of_mem b hx)
        rcases List.mem_cons.mp hxl with h1 | h1
        · omega
        · exact h1
      · apply List.Sublist.cons
        apply ih (b :: t) hl' hds
        intro x hx
        have hxl : x ∈ a :: l := hsub x hx
        have hbl : b ∈ a :: l := hsub b (List.mem_cons_self b t)
        have hab : a < b := by
          rcases List.mem_cons.mp hbl with h1 | h1
          · exact absurd h1 hba
          · exact hal b h1
        rcases List.mem_cons.mp hxl with h1 | h1
        · subst h1
          rcases List.mem_cons.mp hx with h2 | h2
          · exact absurd h2.symm hba
          · exact absurd (hbt _ h2) (by omega)
        · exact h1

set_option maxHeartbeats 1000000 in
set_option maxRecDepth 100000 in
lemma weekLabelOk_all : ∀ ds ∈ weekAll.sublists, weekLabelOk ds := by decide

/-- C9: under the data-model invariant on `daysOfWeek` (strictly ascending,
in range 0..6), the humanized label is "Weekdays" exactly for {1,2,3,4,5},
"Weekends" exactly for {0,6}, "Every day" exactly for absent, empty or all
seven days, and otherwise the day abbreviations joined by commas in
ascending weekday order. -/
theorem getDaysOfWeekString_labels (h : Habit) :
    (h.daysOfWeek = none → h.getDaysOfWeekString = "Every day") ∧
    (∀ ds, h.daysOfWeek = some ds → List.Sorted (· < ·) ds →
      (∀ d ∈ ds, 0 ≤ d ∧ d ≤ 6) →
      ((h.getDaysOfWeekString = "Weekdays" ↔ ds = [1, 2, 3, 4, 5]) ∧
       (h.getDaysOfWeekString = "Weekends" ↔ ds = [0, 6]) ∧
       (h.getDaysOfWeekString = "Every day" ↔ (ds = [] ∨ ds = weekAll)) ∧
       (ds ≠ [1, 2, 3, 4, 5] → ds ≠ [0, 6] → ds ≠ [] → ds ≠ weekAll →
         h.getDaysOfWeekString = String.intercalate ", " (ds.map dayAbbrev)))) := by
  constructor
  · intro hd
    unfold Habit.getDaysOfWeekString
    rw [hd]
    rfl
  · intro ds hd hsorted hrange
    have hsubl : ds.Sublist weekAll := by
      apply sublist_of_sorted_subset weekAll ds (by decide) hsorted
      intro x hx
      have := hrange x hx
      show x ∈ weekAll
      simp only [weekAll, List.mem_cons, List.not_mem_nil, or_false]
      omega
    have hok := weekLabelOk_all ds (List.mem_sublists.mpr hsubl)
    unfold Habit.getDaysOfWeekString
    rw [hd]
    exact hok

def habitC9w : Habit :=
  { id := "w9", name := "n", createdDate := 0, completions := [],
    notificationTime := none, daysOfWeek := some [1, 2, 3, 4, 5], notes := "", tags := [] }

/-- C9 witness: the weekday set yields the "Weekdays" label. -/
theorem getDaysOfWeekString_labels_witness :
    habitC9w.getDaysOfWeekString = "Weekdays" :=
  (((getDaysOfWeekString_labels habitC9w).2 [1, 2, 3, 4, 5] rfl (by decide)
    (by decide)).1).mpr rfl

/-! Lemmas for the completion rate (C3). -/

lemma scheduledDaysPassed_none (h : Habit) (today : Int) (hd : h.daysOfWeek = none) :
    h.scheduledDaysPassed today = h.daysSinceCreation today := by
  unfold Habit.scheduledDaysPassed
  rw [hd]

lemma scheduledDaysPassed_some (h : Habit) (today : Int) (ds : List Int)
    (hd : h.daysOfWeek = some ds) :
    h.scheduledDaysPassed today =
      if ds.isEmpty then h.daysSinceCreation today
      else (((List.range (today - h.createdDate + 1).toNat).filter
              (fun k : Nat => h.isActiveOnDay (h.createdDate + (k : Int)))).length : Int) := by
  unfold Habit.scheduledDaysPassed
  rw [hd]

lemma nodup_map_length_le (c0 : Int) (l : List Int) (p : Nat → Bool) (n : Nat)
    (hnd : l.Nodup)
    (hmem : ∀ c ∈ l, c0 ≤ c ∧ (c - c0).toNat < n ∧ p ((c - c0).toNat) = true) :
    l.length ≤ ((List.range n).filter p).length := by
  have hmap : (l.map (fun c => (c - c0).toNat)).Nodup := by
    refine List.Nodup.map_on ?_ hnd
    intro x hx y hy hxy
    have h1 := (hmem x hx).1
    have h2 := (hmem y hy).1
    omega
  have hsub : (l.map (fun c => (c - c0).toNat)) ⊆ (List.range n).filter p := by
    intro k hk
    rw [List.mem_map] at hk
    obtain ⟨c, hc, rfl⟩ := hk
    obtain ⟨h1, h2, h3⟩ := hmem c hc
    rw [List.mem_filter, List.mem_range]
    exact ⟨h2, h3⟩
  have := (hmap.subperm hsub).length_le
  rwa [List.length_map] at this

lemma length_le_daysSince (h : Habit) (today : Int) (hnd : h.completions.Nodup)
    (hsub : ∀ c ∈ h.completions, h.createdDate ≤ c ∧ c ≤ today)
    (hct : h.createdDate ≤ today) :
    (h.completions.length : Int) ≤ h.daysSinceCreation today := by
  have hmem : ∀ c ∈ h.completions,
      h.createdDate ≤ c ∧
      (c - h.createdDate).toNat < (today - h.createdDate + 1).toNat ∧
      (fun _ : Nat => true) ((c - h.createdDate).toNat) = true := by
    intro c hcm
    obtain ⟨h1, h2⟩ := hsub c hcm
    exact ⟨h1, by omega, rfl⟩
  have hle := nodup_map_length_le h.createdDate h.completions (fun _ => true)
    (today - h.createdDate + 1).toNat hnd hmem
  have heq : ((List.range (today - h.createdDate + 1).toNat).filter
      (fun _ => true)).length = (today - h.createdDate + 1).toNat := by
    rw [List.filter_eq_self.mpr fun a _ => rfl, List.length_range]
  unfold Habit.daysSinceCreation
  omega

lemma length_le_filterCount (h : Habit) (today : Int) (hnd : h.completions.Nodup)
    (hsub : ∀ c ∈ h.completions, h.createdDate ≤ c ∧ c ≤ today ∧ h.isActiveOnDay c = true) :
    h.completions.length ≤
      ((List.range (today - h.createdDate + 1).toNat).filter
        (fun k : Nat => h.isActiveOnDay (h.createdDate + (k : Int)))).length := by
  apply nodup_map_length_le h.createdDate h.completions _ _ hnd
  intro c hc
  obtain ⟨h1, h2, h3⟩ := hsub c hc
  refine ⟨h1, by omega, ?_⟩
  show h.isActiveOnDay (h.createdDate + (((c - h.createdDate).toNat : Nat) : Int)) = true
  rw [show h.createdDate + (((c - h.createdDate).toNat : Nat) : Int) = c from by omega]
  exact h3

lemma completions_le_scheduled (h : Habit) (today : Int)
    (hnd : h.completions.Nodup)
    (hsub : ∀ c ∈ h.completions, h.createdDate ≤ c ∧ c ≤ today ∧ h.isActiveOnDay c = true)
    (hpos : 0 < h.scheduledDaysPassed today) :
    (h.completions.length : Int) ≤ h.scheduledDaysPassed today := by
  by_cases hct : h.createdDate ≤ today
  · cases hd : h.daysOfWeek with
    | none =>
      rw [scheduledDaysPassed_none h today hd]
      exact length_le_daysSince h today hnd
        (fun c hc => ⟨(hsub c hc).1, (hsub c hc).2.1⟩) hct
    | some ds =>
      rw [scheduledDaysPassed_some h today ds hd]
      by_cases hemp : ds.isEmpty
      · rw [if_pos hemp]
        exact length_le_daysSince h today hnd
          (fun c hc => ⟨(hsub c hc).1, (hsub c hc).2.1⟩) hct
      · rw [if_neg hemp]
        exact_mod_cast length_le_filterCount h today hnd hsub
  · have hempc : h.completions = [] := by
      cases hcc : h.completions with
      | nil => rfl
      | cons c0 cs =>
        exfalso
        have h0 := hsub c0 (by rw [hcc]; exact List.mem_cons_self c0 cs)
        omega
    rw [hempc]
    simpa using hpos.le

def habitC3 : Habit :=
  { id := "c3", name := "brand-new", createdDate := 0, completions := [],
    notificationTime := none, daysOfWeek := some [0], notes := "", tags := [] }

def habitC3w : Habit :=
  { id := "w3", name := "n", createdDate := 0, completions := [],
    notificationTime := none, daysOfWeek := none, notes := "", tags := [] }

/-- C3 (amended): the completion rate is the exact rounding formula when
`scheduledDaysPassed` is positive and 0 otherwise (never an error); for a
habit whose de-duplicated completions all lie on scheduled days between
creation and today, the rate is an integer in [0,100]; a brand-new habit
created today with zero completions has rate 0, and its
`scheduledDaysPassed` is at least 1 provided today is one of its scheduled
days (in particular whenever it has no day restriction). -/
theorem completionRate_spec (h : Habit) (today : Int) :
    (h.scheduledDaysPassed today ≤ 0 → h.completionRate today = 0) ∧
    (0 < h.scheduledDaysPassed today →
      h.completionRate today =
        round (((h.completions.length : ℚ) / (h.scheduledDaysPassed today : ℚ)) * 100)) ∧
    (h.completions.Nodup →
      (∀ c ∈ h.completions, h.createdDate ≤ c ∧ c ≤ today ∧ h.isActiveOnDay c = true) →
      0 ≤ h.completionRate today ∧ h.completionRate today ≤ 100) ∧
    (h.createdDate = today → h.completions = [] →
      h.completionRate today = 0 ∧
      (h.isActiveOnDay today = true → 1 ≤ h.scheduledDaysPassed today)) := by
  have hnonpos : h.scheduledDaysPassed today ≤ 0 → h.completionRate today = 0 := by
    intro hs
    unfold Habit.completionRate
    rw [if_neg (by omega)]
  have hformula : 0 < h.scheduledDaysPassed today →
      h.completionRate today =
        round (((h.completions.length : ℚ) / (h.scheduledDaysPassed today : ℚ)) * 100) := by
    intro hs
    unfold Habit.completionRate
    rw [if_pos hs]
  refine ⟨hnonpos, hformula, ?_, ?_⟩
  · intro hnd hsub
    by_cases hs : 0 < h.scheduledDaysPassed today
    · rw [hformula hs]
      have hts : (h.completions.length : Int) ≤ h.scheduledDaysPassed today :=
        completions_le_scheduled h today hnd hsub hs
      have hscast : (0 : ℚ) < (h.scheduledDaysPassed today : ℚ) := by
        exact_mod_cast hs
      have htsq : (h.completions.length : ℚ) ≤ (h.scheduledDaysPassed today : ℚ) := by
        exact_mod_cast hts
      have hq0 : (0 : ℚ) ≤ ((h.completions.length : ℚ) / (h.scheduledDaysPassed today : ℚ)) * 100 := by
        have := div_nonneg (Nat.cast_nonneg h.completions.length) hscast.le
        linarith
      have hq100 : ((h.completions.length : ℚ) / (h.scheduledDaysPassed today : ℚ)) * 100 ≤ 100 := by
        have h1 : (h.completions.length : ℚ) / (h.scheduledDaysPassed today : ℚ) ≤ 1 :=
          (div_le_one hscast).mpr htsq
        linarith
      constructor
      · rw [round_eq]
        have : (0 : Int) ≤ ⌊((h.completions.length : ℚ) / (h.scheduledDaysPassed today : ℚ)) * 100 + 1 / 2⌋ := by
          rw [Int.le_floor]
          push_cast
          linarith
        exact this
      · rw [round_eq]
        have : ⌊((h.completions.length : ℚ) / (h.scheduledDaysPassed today : ℚ)) * 100 + 1 / 2⌋ < 101 := by
          rw [Int.floor_lt]
          push_cast
          linarith
        omega
    · rw [hnonpos (by omega)]
      omega
  · intro hcd hce
    constructor
    · by_cases hs : 0 < h.scheduledDaysPassed today
      · rw [hformula hs, hce]
        norm_num
      · exact hnonpos (by omega)
    · intro hA
      cases hdw : h.daysOfWeek with
      | none =>
        rw [scheduledDaysPassed_none h today hdw]
        unfold Habit.daysSinceCreation
        omega
      | some ds =>
        rw [scheduledDaysPassed_some h today ds hdw]
        by_cases hemp : ds.isEmpty
        · rw [if_pos hemp]
          unfold Habit.daysSinceCreation
          omega
        · rw [if_neg hemp, hcd]
          have hA0 : h.isActiveOnDay (today + ((0 : Nat) : Int)) = true := by
            simpa using hA
          simp [show today - today + 1 = (1 : Int) from by omega, List.filter, hA0, hA]

/-- C3 counterexample: `habitC3` is brand-new (created today = 0, zero
completions) yet has a weekly restriction that excludes today, so its
`scheduledDaysPassed` is 0, not at least 1; the rate is still 0. -/
theorem completionRate_newHabit_counterexample :
    habitC3.createdDate = 0 ∧ habitC3.completions = [] ∧
    habitC3.scheduledDaysPassed 0 = 0 ∧ habitC3.completionRate 0 = 0 := by decide

/-- C3 witness: a brand-new unrestricted habit has rate 0, a positive
scheduled-day count, and a rate within bounds. -/
theorem completionRate_spec_witness :
    habitC3w.completionRate 0 = 0 ∧ 1 ≤ habitC3w.scheduledDaysPassed 0 ∧
    0 ≤ habitC3w.completionRate 0 ∧ habitC3w.completionRate 0 ≤ 100 :=
  ⟨((completionRate_spec habitC3w 0).2.2.2 rfl rfl).1,
   ((completionRate_spec habitC3w 0).2.2.2 rfl rfl).2 (by decide),
   ((completionRate_spec habitC3w 0).2.2.1 (by decide) (by decide)).1,
   ((completionRate_spec habitC3w 0).2.2.1 (by decide) (by decide)).2⟩

/-! Congruence lemmas for the all-days equivalence (C6). -/

lemma isCompletedOn_congr (h1 h2 : Habit) (hC : h1.completions = h2.completions) (d : Int) :
    h1.isCompletedOn d = h2.isCompletedOn d := by
  unfold Habit.isCompletedOn
  rw [hC]

lemma streakLoop_congr (h1 h2 : Habit)
    (hA : ∀ x, h1.isActiveOnDay x = h2.isActiveOnDay x)
    (hC : h1.completions = h2.completions) :
    ∀ (fuel : Nat) (d : Int) (s : Nat) (b : Bool),
      h1.streakLoop d s b fuel = h2.streakLoop d s b fuel := by
  intro fuel
  induction fuel with
  | zero => intro d s b; rfl
  | succ n ih =>
    intro d s b
    simp only [streakLoop_succ, hA, isCompletedOn_congr h1 h2 hC, ih]

lemma calculateStreak_congr (h1 h2 : Habit)
    (hA : ∀ x, h1.isActiveOnDay x = h2.isActiveOnDay x)
    (hC : h1.completions = h2.completions) (today : Int) :
    h1.calculateStreak today = h2.calculateStreak today := by
  unfold Habit.calculateStreak
  rw [hC, streakLoop_congr h1 h2 hA hC]

lemma existsScheduledBetween_congr (h1 h2 : Habit)
    (hA : ∀ x, h1.isActiveOnDay x = h2.isActiveOnDay x) (a b : Int) :
    h1.existsScheduledBetween a b = h2.existsScheduledBetween a b := by
  unfold Habit.existsScheduledBetween
  congr 1
  funext k
  exact hA _

lemma longestStreakAux_congr (h1 h2 : Habit)
    (hA : ∀ x, h1.isActiveOnDay x = h2.isActiveOnDay x) :
    ∀ (l : List Int) (prev : Int) (temp longest : Nat),
      h1.longestStreakAux l prev temp longest = h2.longestStreakAux l prev temp longest := by
  intro l
  induction l with
  | nil => intro prev temp longest; rfl
  | cons c rest ih =>
    intro prev temp longest
    simp only [Habit.longestStreakAux, existsScheduledBetween_congr h1 h2 hA, ih]

lemma longestStreak_congr (h1 h2 : Habit)
    (hA : ∀ x, h1.isActiveOnDay x = h2.isActiveOnDay x)
    (hC : h1.completions = h2.completions) :
    h1.longestStreak = h2.longestStreak := by
  have hsc : h1.sortedCompletions = h2.sortedCompletions := by
    unfold Habit.sortedCompletions
    rw [hC]
  unfold Habit.longestStreak
  rw [hsc]
  cases h2.sortedCompletions with
  | nil => rfl
  | cons c rest => exact longestStreakAux_congr h1 h2 hA rest c 1 0

lemma isActive_of_cover (h : Habit) (ds : List Int) (hd : h.daysOfWeek = some ds)
    (hcov : ∀ w ∈ weekAll, w ∈ ds) (d : Int) : h.isActiveOnDay d = true := by
  have h0 : (0 : Int) ∈ ds := hcov 0 (by decide)
  have hne : ds.isEmpty = false := by
    cases ds with
    | nil => cases h0
    | cons a t => rfl
  unfold Habit.isActiveOnDay
  rw [hd]
  show (if ds.isEmpty = true then true else ds.contains (weekday d)) = true
  rw [hne]
  simp only [Bool.false_eq_true, if_false]
  rw [contains_iff_mem']
  apply hcov
  have h1 := weekday_nonneg d
  have h2 := weekday_lt_seven d
  simp only [weekAll, List.mem_cons, List.not_mem_nil, or_false]
  omega

lemma scheduledDaysPassed_of_cover (h : Habit) (ds : List Int) (hd : h.daysOfWeek = some ds)
    (hcov : ∀ w ∈ weekAll, w ∈ ds) (today : Int) (hct : h.createdDate ≤ today) :
    h.scheduledDaysPassed today = h.daysSinceCreation today := by
  have h0 : (0 : Int) ∈ ds := hcov 0 (by decide)
  have hne : ds.isEmpty = false := by
    cases ds with
    | nil => cases h0
    | cons a t => rfl
  rw [scheduledDaysPassed_some h today ds hd, hne]
  simp only [Bool.false_eq_true, if_false]
  rw [List.filter_eq_self.mpr fun a _ => isActive_of_cover h ds hd hcov _,
    List.length_range]
  unfold Habit.daysSinceCreation
  omega

/-- C6: `isActiveOnDay` returns true unconditionally when `daysOfWeek` is
absent or empty, and is otherwise membership of the day's weekday number
(hence also true on every day when all 7 values are present); a habit whose
`daysOfWeek` covers all 7 weekdays behaves exactly like the same habit with
no restriction: same schedule checks, same streak, and the same statistics
record (streaks, rates, counts) at any day from its creation onward. -/
theorem isActiveOnDay_contract (h : Habit) (t d : Int) :
    (h.daysOfWeek = none → h.isActiveOnDay d = true) ∧
    (h.daysOfWeek = some [] → h.isActiveOnDay d = true) ∧
    (∀ ds, h.daysOfWeek = some ds → ds ≠ [] →
      h.isActiveOnDay d = ds.contains (weekday d)) ∧
    (∀ ds, h.daysOfWeek = some ds → (∀ w ∈ weekAll, w ∈ ds) →
      h.isActiveOnDay d = true ∧
      ({ h with daysOfWeek := none } : Habit).isActiveOnDay d = true ∧
      h.calculateStreak t = ({ h with daysOfWeek := none } : Habit).calculateStreak t ∧
      (h.createdDate ≤ t →
        h.getStatistics t = ({ h with daysOfWeek := none } : Habit).getStatistics t)) := by
  refine ⟨?_, ?_, ?_, ?_⟩
  · intro hd
    unfold Habit.isActiveOnDay
    rw [hd]
  · intro hd
    unfold Habit.isActiveOnDay
    rw [hd]
    rfl
  · intro ds hd hne
    have hemp : ds.isEmpty = false := by
      cases ds with
      | nil => exact absurd rfl hne
      | cons a tl => rfl
    unfold Habit.isActiveOnDay
    rw [hd]
    show (if ds.isEmpty = true then true else ds.contains (weekday d)) = _
    rw [hemp]
    simp
  · intro ds hd hcov
    have hact : ∀ x, h.isActiveOnDay x = true := isActive_of_cover h ds hd hcov
    have hAeq : ∀ x, h.isActiveOnDay x =
        ({ h with daysOfWeek := none } : Habit).isActiveOnDay x := by
      intro x
      rw [hact x]
      rfl
    refine ⟨hact d, rfl, calculateStreak_congr _ _ hAeq rfl t, ?_⟩
    intro hct
    have hseq : h.scheduledDaysPassed t =
        ({ h with daysOfWeek := none } : Habit).scheduledDaysPassed t := by
      rw [scheduledDaysPassed_of_cover h ds hd hcov t hct,
        scheduledDaysPassed_none ({ h with daysOfWeek := none } : Habit) t rfl]
      rfl
    unfold Habit.getStatistics
    simp only [Statistics.mk.injEq]
    refine ⟨trivial, calculateStreak_congr _ _ hAeq rfl t,
      longestStreak_congr _ _ hAeq rfl, ?_, rfl, hseq⟩
    unfold Habit.completionRate
    rw [hseq]

def habitC6w : Habit :=
  { id := "w6", name := "n", createdDate := -1, completions := [0],
    notificationTime := none, daysOfWeek := some [0, 1, 2, 3, 4, 5, 6],
    notes := "", tags := [] }

/-- C6 witness: a habit scheduled on all seven weekdays agrees with its
unrestricted twin on a concrete schedule check, streak and statistics. -/
theorem isActiveOnDay_contract_witness :
    habitC6w.isActiveOnDay 5 = true ∧
    habitC6w.calculateStreak 0 =
      ({ habitC6w with daysOfWeek := none } : Habit).calculateStreak 0 ∧
    habitC6w.getStatistics 0 =
      ({ habitC6w with daysOfWeek := none } : Habit).getStatistics 0 := by
  have hmain := (isActiveOnDay_contract habitC6w 0 5).2.2.2 [0, 1, 2, 3, 4, 5, 6]
    rfl (by decide)
  exact ⟨hmain.1, hmain.2.2.1, hmain.2.2.2 (by decide)⟩
